import Mathlib

/-!
Verification of the INF202 oil-spill simulation core.

Shallow embedding of the repository's simulation driver (`src/Simulation/solver.py`,
function `find_and_plot`) and of the configuration reader (`config.py`, function
`readConfig`), together with theorems settling the specification claims.

The mesh/cell module (`mesh.py`, `cells.py`) is not part of the provided sources;
the operators it owns (`calculate_change`, `initial_oil_distribution`,
`cells_within_area`) are modelled from the specification where needed and are
clearly marked as such.  Machine reals are embedded as rationals; Python's
`round(x, d)` is embedded as rounding `x * 10^d` to the nearest integer.
-/

namespace OilSpill

/-- The cell variants registered in `main.py`: tags 1, 2, 3. -/
inductive CellKind where
  | vertex
  | line
  | triangle
deriving DecidableEq, Repr

/-- A mesh cell.  `index`, `oil_amount` and `oil_change` are the fields the driver
reads and writes (`solver.py`).  `neighbors` stores mesh indices of the cells
sharing an edge, and `area` the precomputed polygon area; both are filled by the
geometry pass and are never mutated by the stepping loop. -/
structure Cell where
  index : Nat
  kind : CellKind
  neighbors : List Nat
  area : ℚ
  oil_amount : ℚ
  oil_change : ℚ
deriving DecidableEq, Repr

instance : Inhabited Cell :=
  ⟨⟨0, CellKind.vertex, [], 0, 0, 0⟩⟩

/-- The driver's transport test `not isinstance(cell, Vertex) and not isinstance(cell, Line)`:
only Triangle cells participate in transport. -/
def isTransport (c : Cell) : Bool :=
  c.kind == CellKind.triangle

/-- Python's `round(x, d)` embedded over ℚ: round `x * 10^d` to the nearest
integer, divide back. -/
def roundTo (x : ℚ) (d : ℕ) : ℚ :=
  (round (x * 10 ^ d) : ℤ) / 10 ^ d

/-- Modelled from the spec: `mesh.calculate_change(cell, dt)` lives in the missing
`mesh.py`.  Per §4.3 it reads the time-*t* `oil_amount` of the cell and of its
neighbors and writes only the cell's own `oil_change`, as a sum of per-edge
exchanges computed by a pluggable flux kernel.  The kernel is the parameter
`flux dt self neighbor`; the specification constrains it to be antisymmetric in
the two cells. -/
def calculate_change (flux : ℚ → Cell → Cell → ℚ) (dt : ℚ) (s : List Cell) (i : ℕ) :
    List Cell :=
  match s.get? i with
  | none => s
  | some c =>
      s.set i { c with oil_change := (c.neighbors.map fun j => flux dt c (s.getD j c)).sum }

/-- Phase 1 of the two-phase update in `find_and_plot` (solver.py lines 122-124):
visit the cells in the given order, calling `calculate_change` on every
transport-capable one. -/
def phase1 (flux : ℚ → Cell → Cell → ℚ) (dt : ℚ) (s : List Cell) (order : List ℕ) :
    List Cell :=
  order.foldl
    (fun st i => if isTransport (st.getD i default) then calculate_change flux dt st i else st)
    s

/-- The commit applied per cell in phase 2 (solver.py lines 128-129):
`oil_amount += oil_change; oil_change = 0`. -/
def commitCell (c : Cell) : Cell :=
  { c with oil_amount := c.oil_amount + c.oil_change, oil_change := 0 }

/-- Phase 2 of the two-phase update (solver.py lines 126-129): commit every
transport-capable cell, leave Vertex/Line cells untouched. -/
def phase2 (s : List Cell) : List Cell :=
  s.map fun c => if isTransport c then commitCell c else c

/-- One full simulation step as the driver performs it: phase 1 over the cells in
mesh order, then — only after that loop has finished — phase 2. -/
def step (flux : ℚ → Cell → Cell → ℚ) (dt : ℚ) (s : List Cell) : List Cell :=
  phase2 (phase1 flux dt s (List.range s.length))

/-- A cell with its transient `oil_change` accumulator cleared; two cells that
agree after stripping agree on every field the compute phase reads. -/
def stripChange (c : Cell) : Cell :=
  { c with oil_change := 0 }

/-- The value `calculate_change` stores into `cell.oil_change`, as a function of
the time-*t* state only. -/
def chg (flux : ℚ → Cell → Cell → ℚ) (dt : ℚ) (s : List Cell) (i : ℕ) : ℚ :=
  match s.get? i with
  | none => 0
  | some c => (c.neighbors.map fun j => flux dt c (s.getD j c)).sum

/-- Sum of `oil_change` over the transport-capable cells of a state. -/
def totalOilChange (s : List Cell) : ℚ :=
  ((s.filter fun c => isTransport c).map (·.oil_change)).sum

/-- A concrete flux kernel satisfying the specification's contract (proportional
to the oil-amount differential, scaled by `dt`, antisymmetric); used to
instantiate witnesses. -/
def fluxEx (dt : ℚ) (a b : Cell) : ℚ :=
  dt * (b.oil_amount - a.oil_amount)

/-- A concrete interior triangle cell used in witnesses. -/
def tri0 : Cell :=
  ⟨0, CellKind.triangle, [], 1, 5, 0⟩

theorem set_get?_self {α : Type _} {l : List α} {i : ℕ} {a : α} (h : l.get? i = some a) :
    l.set i a = l := by
  apply List.ext_get?_iff.mpr
  intro n
  by_cases hn : n = i
  · subst hn
    rw [List.get?_set_eq, h]
    rfl
  · exact List.get?_set_ne _ _ fun he => hn he.symm

theorem calculate_change_strip (flux : ℚ → Cell → Cell → ℚ) (dt : ℚ) (s : List Cell) (i : ℕ) :
    (calculate_change flux dt s i).map stripChange = s.map stripChange := by
  unfold calculate_change
  cases h : s.get? i with
  | none => rfl
  | some c =>
      rw [List.map_set]
      exact set_get?_self (by rw [List.get?_map, h]; rfl)

theorem chg_none (flux : ℚ → Cell → Cell → ℚ) (dt : ℚ) {s : List Cell} {i : ℕ}
    (h : s.get? i = none) : chg flux dt s i = 0 := by
  unfold chg
  rw [h]

theorem chg_some (flux : ℚ → Cell → Cell → ℚ) (dt : ℚ) {s : List Cell} {i : ℕ} {c : Cell}
    (h : s.get? i = some c) :
    chg flux dt s i = (c.neighbors.map fun j => flux dt c (s.getD j c)).sum := by
  unfold chg
  rw [h]

theorem chg_strip_congr (flux : ℚ → Cell → Cell → ℚ) (dt : ℚ) {s t : List Cell}
    (hflux : ∀ d a b, flux d (stripChange a) (stripChange b) = flux d a b)
    (h : t.map stripChange = s.map stripChange) (i : ℕ) :
    chg flux dt t i = chg flux dt s i := by
  have hget : ∀ j, (t.get? j).map stripChange = (s.get? j).map stripChange := by
    intro j
    rw [← List.get?_map, ← List.get?_map, h]
  cases hs : s.get? i with
  | none =>
      have hti := hget i
      rw [hs] at hti
      cases ht : t.get? i with
      | none => rw [chg_none flux dt ht, chg_none flux dt hs]
      | some c => rw [ht] at hti; exact absurd hti (by simp)
  | some c =>
      have hti := hget i
      rw [hs] at hti
      cases ht : t.get? i with
      | none => rw [ht] at hti; exact absurd hti (by simp)
      | some c' =>
          rw [ht] at hti
          have hcc : stripChange c' = stripChange c := by
            simpa using hti
          have hnb : c'.neighbors = c.neighbors := by
            have h2 := congrArg Cell.neighbors hcc
            exact h2
          rw [chg_some flux dt ht, chg_some flux dt hs, hnb]
          congr 1
          apply List.map_congr_left
          intro j _
          have hx : stripChange (t.getD j c') = stripChange (s.getD j c) := by
            rw [List.getD_eq_get?, List.getD_eq_get?]
            have := hget j
            cases hsj : s.get? j with
            | none =>
                rw [hsj] at this
                cases htj : t.get? j with
                | none => simpa using hcc
                | some d => rw [htj] at this; exact absurd this (by simp)
            | some d =>
                rw [hsj] at this
                cases htj : t.get? j with
                | none => rw [htj] at this; exact absurd this (by simp)
                | some d' => rw [htj] at this; simpa using this
          calc flux dt c' (t.getD j c')
              = flux dt (stripChange c') (stripChange (t.getD j c')) := (hflux ..).symm
            _ = flux dt (stripChange c) (stripChange (s.getD j c)) := by rw [hcc, hx]
            _ = flux dt c (s.getD j c) := hflux ..

theorem phase1_aux (flux : ℚ → Cell → Cell → ℚ) (dt : ℚ)
    (hflux : ∀ d a b, flux d (stripChange a) (stripChange b) = flux d a b)
    (s : List Cell) (order : List ℕ) :
    ∀ st : List Cell, st.map stripChange = s.map stripChange →
      (phase1 flux dt st order).map stripChange = s.map stripChange ∧
      ∀ i, (phase1 flux dt st order).get? i =
        (st.get? i).map fun c =>
          if i ∈ order ∧ isTransport c = true then { c with oil_change := chg flux dt s i }
          else c := by
  induction order with
  | nil =>
      intro st hst
      refine ⟨hst, fun i => ?_⟩
      have h0 : phase1 flux dt st [] = st := rfl
      rw [h0]
      cases h : st.get? i with
      | none => rfl
      | some c => simp
  | cons a rest ih =>
      intro st hst
      by_cases hT : isTransport (st.getD a default) = true
      · -- cell `a` is transport-capable: it gets its `oil_change` written
        obtain ⟨ca, hca⟩ : ∃ ca, st.get? a = some ca := by
          cases h : st.get? a with
          | none =>
              rw [List.getD_eq_get?, h] at hT
              exact absurd hT (by decide)
          | some c => exact ⟨c, rfl⟩
        have hTca : isTransport ca = true := by
          rw [List.getD_eq_get?, hca] at hT
          exact hT
        have hchg : chg flux dt st a = chg flux dt s a :=
          chg_strip_congr flux dt hflux hst a
        have hcc : calculate_change flux dt st a =
            st.set a { ca with oil_change := chg flux dt s a } := by
          unfold calculate_change
          rw [hca, ← hchg, chg_some flux dt hca]
        have hstep : phase1 flux dt st (a :: rest) =
            phase1 flux dt (calculate_change flux dt st a) rest := by
          unfold phase1
          rw [List.foldl_cons, if_pos hT]
        have hst1 : (calculate_change flux dt st a).map stripChange = s.map stripChange :=
          (calculate_change_strip flux dt st a).trans hst
        obtain ⟨ih1, ih2⟩ := ih (calculate_change flux dt st a) hst1
        refine ⟨by rw [hstep]; exact ih1, fun i => ?_⟩
        rw [hstep, ih2 i, hcc]
        by_cases hi : i = a
        · subst hi
          rw [List.get?_set_eq, hca]
          have hTca' : isTransport { ca with oil_change := chg flux dt s i } = true := hTca
          by_cases har : i ∈ rest
          · simp [har, hTca, hTca']
          · simp [har, hTca, hTca']
        · rw [List.get?_set_ne _ _ fun he => hi he.symm]
          cases st.get? i with
          | none => rfl
          | some c =>
              have hmem : (i ∈ a :: rest) = (i ∈ rest) := by
                simp [List.mem_cons, hi]
              simp only [Option.map_some, hmem]
      · -- cell `a` is not transport-capable: the fold leaves the state alone
        have hstep : phase1 flux dt st (a :: rest) = phase1 flux dt st rest := by
          unfold phase1
          rw [List.foldl_cons, if_neg hT]
        obtain ⟨ih1, ih2⟩ := ih st hst
        refine ⟨by rw [hstep]; exact ih1, fun i => ?_⟩
        rw [hstep, ih2 i]
        cases hsi : st.get? i with
        | none => rfl
        | some c =>
            by_cases hi : i = a
            · subst hi
              have hTc : isTransport c = false := by
                rw [List.getD_eq_get?, hsi] at hT
                exact eq_false_of_ne_true hT
              simp [hTc]
            · have hmem : (i ∈ a :: rest) = (i ∈ rest) := by
                simp [List.mem_cons, hi]
              simp only [Option.map_some, hmem]

theorem phase1_strip (flux : ℚ → Cell → Cell → ℚ) (dt : ℚ)
    (hflux : ∀ d a b, flux d (stripChange a) (stripChange b) = flux d a b)
    (s : List Cell) (order : List ℕ) :
    (phase1 flux dt s order).map stripChange = s.map stripChange :=
  (phase1_aux flux dt hflux s order s rfl).1

theorem phase1_get? (flux : ℚ → Cell → Cell → ℚ) (dt : ℚ)
    (hflux : ∀ d a b, flux d (stripChange a) (stripChange b) = flux d a b)
    (s : List Cell) (order : List ℕ) (i : ℕ) :
    (phase1 flux dt s order).get? i =
      (s.get? i).map fun c =>
        if i ∈ order ∧ isTransport c = true then { c with oil_change := chg flux dt s i }
        else c :=
  (phase1_aux flux dt hflux s order s rfl).2 i

/-- C1: the driver's step runs phase 1 (`calculate_change` on every
transport-capable cell) to completion before any commit, and phase 2 then applies
`oil_amount += oil_change; oil_change = 0` to every transport-capable cell;
consequently at the end of every step every transport-capable cell's
`oil_change` is 0. -/
theorem step_resets_oil_change (flux : ℚ → Cell → Cell → ℚ) (dt : ℚ) (s : List Cell) :
    ∀ c ∈ step flux dt s, isTransport c → c.oil_change = 0 := by
  intro c hc htr
  rcases List.mem_map.mp hc with ⟨a, _, ha⟩
  by_cases h : isTransport a
  · rw [if_pos h] at ha
    rw [← ha]
    rfl
  · rw [if_neg h] at ha
    rw [← ha] at htr
    exact absurd htr h

/-- Witness for C1 at a concrete one-triangle mesh. -/
theorem step_resets_oil_change_w : tri0.oil_change = 0 :=
  step_resets_oil_change fluxEx 1 [tri0] tri0
    (by
      have h : step fluxEx 1 [tri0] = [tri0] := by
        norm_num [step, phase1, phase2, calculate_change, commitCell, tri0, isTransport, fluxEx,
          List.range_succ]
      rw [h]
      exact List.mem_singleton.mpr rfl)
    (by decide)

theorem calculate_change_none (flux : ℚ → Cell → Cell → ℚ) (dt : ℚ) {s : List Cell} {i : ℕ}
    (h : s.get? i = none) : calculate_change flux dt s i = s := by
  unfold calculate_change
  rw [h]

theorem calculate_change_some (flux : ℚ → Cell → Cell → ℚ) (dt : ℚ) {s : List Cell} {i : ℕ}
    {c : Cell} (h : s.get? i = some c) :
    calculate_change flux dt s i = s.set i { c with oil_change := chg flux dt s i } := by
  unfold calculate_change
  rw [h, chg_some flux dt h]

theorem phase1_eq_of_perm (flux : ℚ → Cell → Cell → ℚ) (dt : ℚ) (s : List Cell)
    (order : List ℕ)
    (hflux : ∀ d a b, flux d (stripChange a) (stripChange b) = flux d a b)
    (hperm : order.Perm (List.range s.length)) :
    phase1 flux dt s order = phase1 flux dt s (List.range s.length) := by
  apply List.ext_get?_iff.mpr
  intro i
  have hfun : (fun c : Cell =>
        if i ∈ order ∧ isTransport c = true then { c with oil_change := chg flux dt s i }
        else c)
      = fun c : Cell =>
        if i ∈ List.range s.length ∧ isTransport c = true then
          { c with oil_change := chg flux dt s i }
        else c := by
    funext x
    exact if_congr (and_congr_left' hperm.mem_iff) rfl rfl
  rw [phase1_get? flux dt hflux, phase1_get? flux dt hflux, hfun]

/-- A pair of adjacent concrete triangles used in witnesses. -/
def tri1 : Cell :=
  ⟨0, CellKind.triangle, [1], 1, 10, 0⟩

/-- The second of the pair of adjacent concrete triangles. -/
def tri2 : Cell :=
  ⟨1, CellKind.triangle, [0], 1, 0, 0⟩

/-- C2: phase 1 may visit the cells in any permutation of the mesh order without
changing any post-step `oil_amount`; the mechanism is that `calculate_change`
writes only the visited cell's `oil_change`, mutating no other cell and no
`oil_amount`. -/
theorem step_order_independent (flux : ℚ → Cell → Cell → ℚ) (dt : ℚ) (s : List Cell)
    (order : List ℕ)
    (hflux : ∀ d a b, flux d (stripChange a) (stripChange b) = flux d a b)
    (hperm : order.Perm (List.range s.length)) :
    (phase2 (phase1 flux dt s order)).map (·.oil_amount) =
      (step flux dt s).map (·.oil_amount) ∧
    (∀ i j, j ≠ i → (calculate_change flux dt s i).get? j = s.get? j) ∧
    ∀ i, ((calculate_change flux dt s i).get? i).map (·.oil_amount) =
      (s.get? i).map (·.oil_amount) := by
  refine ⟨?_, ?_, ?_⟩
  · rw [step, phase1_eq_of_perm flux dt s order hflux hperm]
  · intro i j hj
    cases h : s.get? i with
    | none => rw [calculate_change_none flux dt h]
    | some c =>
        rw [calculate_change_some flux dt h]
        exact List.get?_set_ne _ _ fun he => hj he.symm
  · intro i
    cases h : s.get? i with
    | none => rw [calculate_change_none flux dt h, h]
    | some c => rw [calculate_change_some flux dt h, List.get?_set_eq, h]; rfl

/-- Witness for C2: visiting the two-triangle mesh in reversed order yields the
same post-step oil amounts. -/
theorem step_order_independent_w :
    (phase2 (phase1 fluxEx 1 [tri1, tri2] [1, 0])).map (·.oil_amount) =
      (step fluxEx 1 [tri1, tri2]).map (·.oil_amount) :=
  (step_order_independent fluxEx 1 [tri1, tri2] [1, 0] (fun _ _ _ => rfl) (by decide)).1

theorem sum_list_range (n : ℕ) (f : ℕ → ℚ) :
    ((List.range n).map f).sum = ∑ j ∈ Finset.range n, f j := by
  induction n with
  | zero => simp
  | succ m ih => rw [List.range_succ, List.map_append, List.sum_append, Finset.sum_range_succ, ih]; simp

theorem totalOilChange_eq (t : List Cell) :
    totalOilChange t =
      ((List.range t.length).map fun i =>
        if isTransport (t.getD i default) = true then (t.getD i default).oil_change else 0).sum := by
  induction t with
  | nil => rfl
  | cons c t' ih =>
      rw [List.length_cons, List.range_succ_eq_map, List.map_cons, List.sum_cons, List.map_map]
      have hmap : ((List.range t'.length).map
            ((fun i => if isTransport ((c :: t').getD i default) = true
              then ((c :: t').getD i default).oil_change else 0) ∘ Nat.succ))
          = (List.range t'.length).map fun i =>
              if isTransport (t'.getD i default) = true then (t'.getD i default).oil_change
              else 0 := by
        apply List.map_congr_left
        intro j _
        simp [Function.comp]
      rw [hmap, ← ih]
      by_cases hc : isTransport c = true
      · simp [totalOilChange, List.filter_cons, hc]
      · simp [totalOilChange, List.filter_cons, hc]

theorem sum_map_eq_sum_count (L : List ℕ) (f : ℕ → ℚ) (n : ℕ) (h : ∀ x ∈ L, x < n) :
    (L.map f).sum = ∑ j ∈ Finset.range n, (L.count j : ℚ) * f j := by
  induction L with
  | nil => simp
  | cons a L' ih =>
      have ha : a ∈ Finset.range n := Finset.mem_range.mpr (h a (List.mem_cons_self a L'))
      have h' : ∀ x ∈ L', x < n := fun x hx => h x (List.mem_cons_of_mem _ hx)
      rw [List.map_cons, List.sum_cons, ih h']
      have hterm : ∀ j, ((a :: L').count j : ℚ) * f j =
          (L'.count j : ℚ) * f j + if j = a then f j else 0 := by
        intro j
        rw [List.count_cons]
        push_cast
        by_cases hj : j = a
        · subst hj
          simp
          ring
        · have hne : (a == j) = false := by
            simp [Ne.symm hj]
          rw [hne, if_neg hj]
          simp
      rw [Finset.sum_congr rfl fun j _ => hterm j, Finset.sum_add_distrib,
        Finset.sum_ite_eq' (Finset.range n) a f, if_pos ha]
      ring

theorem sum_antisym_zero (n : ℕ) (C : ℕ → ℕ → ℕ) (G : ℕ → ℕ → ℚ)
    (hC : ∀ i < n, ∀ j < n, C i j = C j i) (hG : ∀ i < n, ∀ j < n, G i j = -G j i) :
    ∑ i ∈ Finset.range n, ∑ j ∈ Finset.range n, (C i j : ℚ) * G i j = 0 := by
  have key : ∑ i ∈ Finset.range n, ∑ j ∈ Finset.range n, (C i j : ℚ) * G i j
      = -∑ i ∈ Finset.range n, ∑ j ∈ Finset.range n, (C i j : ℚ) * G i j := by
    calc ∑ i ∈ Finset.range n, ∑ j ∈ Finset.range n, (C i j : ℚ) * G i j
        = ∑ i ∈ Finset.range n, ∑ j ∈ Finset.range n, -((C j i : ℚ) * G j i) := by
          apply Finset.sum_congr rfl
          intro i hi
          apply Finset.sum_congr rfl
          intro j hj
          rw [hC i (Finset.mem_range.mp hi) j (Finset.mem_range.mp hj),
            hG i (Finset.mem_range.mp hi) j (Finset.mem_range.mp hj)]
          ring
      _ = -∑ i ∈ Finset.range n, ∑ j ∈ Finset.range n, (C j i : ℚ) * G j i := by
          rw [← Finset.sum_neg_distrib]
          apply Finset.sum_congr rfl
          intro i _
          rw [Finset.sum_neg_distrib]
      _ = -∑ j ∈ Finset.range n, ∑ i ∈ Finset.range n, (C j i : ℚ) * G j i := by
          rw [Finset.sum_comm]
  linarith

theorem get?_eq_some_getD {s : List Cell} {i : ℕ} (hi : i < s.length) :
    s.get? i = some (s.getD i default) := by
  cases h : s.get? i with
  | none => exact absurd (List.get?_eq_none.mp h) (by omega)
  | some c => rw [List.getD_eq_get?, h]; rfl

/-- C3: after phase 1 of any step on a closed mesh (symmetric neighbor relation,
every neighbor of a transport-capable cell in range and transport-capable), the
`oil_change` values produced by an antisymmetric flux kernel sum to 0 over all
transport-capable cells: total oil is conserved across the commit. -/
theorem phase1_conserves_total (flux : ℚ → Cell → Cell → ℚ) (dt : ℚ) (s : List Cell)
    (hflux : ∀ d a b, flux d (stripChange a) (stripChange b) = flux d a b)
    (hanti : ∀ d a b, flux d a b = -flux d b a)
    (hsym : ∀ i < s.length, ∀ j < s.length,
      (s.getD i default).neighbors.count j = (s.getD j default).neighbors.count i)
    (hnbr : ∀ i < s.length, isTransport (s.getD i default) = true →
      ∀ j ∈ (s.getD i default).neighbors,
        j < s.length ∧ isTransport (s.getD j default) = true) :
    totalOilChange (phase1 flux dt s (List.range s.length)) = 0 := by
  have hstrip := phase1_strip flux dt hflux s (List.range s.length)
  have hlen : (phase1 flux dt s (List.range s.length)).length = s.length := by
    have hl := congrArg List.length hstrip
    simpa using hl
  have hcell : ∀ i < s.length, (phase1 flux dt s (List.range s.length)).get? i =
      some (if isTransport (s.getD i default) = true
        then { s.getD i default with oil_change := chg flux dt s i }
        else s.getD i default) := by
    intro i hi
    rw [phase1_get? flux dt hflux, get?_eq_some_getD hi]
    have hmem : i ∈ List.range s.length := List.mem_range.mpr hi
    have hpair : (if i ∈ List.range s.length ∧ isTransport (s.getD i default) = true
          then { s.getD i default with oil_change := chg flux dt s i }
          else s.getD i default)
        = if isTransport (s.getD i default) = true
          then { s.getD i default with oil_change := chg flux dt s i }
          else s.getD i default := by
      by_cases hT : isTransport (s.getD i default) = true
      · rw [if_pos ⟨hmem, hT⟩, if_pos hT]
      · rw [if_neg fun h => hT h.2, if_neg hT]
    calc Option.map (fun c =>
            if i ∈ List.range s.length ∧ isTransport c = true
            then { c with oil_change := chg flux dt s i } else c) (some (s.getD i default))
        = some (if i ∈ List.range s.length ∧ isTransport (s.getD i default) = true
            then { s.getD i default with oil_change := chg flux dt s i }
            else s.getD i default) := rfl
      _ = some (if isTransport (s.getD i default) = true
            then { s.getD i default with oil_change := chg flux dt s i }
            else s.getD i default) := congrArg some hpair
  rw [totalOilChange_eq, hlen]
  have hsummand : ∀ i ∈ List.range s.length,
      (if isTransport ((phase1 flux dt s (List.range s.length)).getD i default) = true
        then ((phase1 flux dt s (List.range s.length)).getD i default).oil_change else 0)
      = if isTransport (s.getD i default) = true then chg flux dt s i else 0 := by
    intro i hi
    have hi' : i < s.length := List.mem_range.mp hi
    rw [List.getD_eq_get? (phase1 flux dt s (List.range s.length)) i default, hcell i hi',
      Option.getD_some]
    by_cases hT : isTransport (s.getD i default) = true
    · have hXY : (if isTransport (s.getD i default) = true
          then { s.getD i default with oil_change := chg flux dt s i }
          else s.getD i default)
          = { s.getD i default with oil_change := chg flux dt s i } := if_pos hT
      rw [hXY]
      have hTX : isTransport { s.getD i default with oil_change := chg flux dt s i } = true := hT
      rw [if_pos hTX, if_pos hT]
    · have hXY : (if isTransport (s.getD i default) = true
          then { s.getD i default with oil_change := chg flux dt s i }
          else s.getD i default)
          = s.getD i default := if_neg hT
      rw [hXY, if_neg hT, if_neg hT]
  rw [List.map_congr_left hsummand, sum_list_range]
  have hchg : ∀ i ∈ Finset.range s.length,
      (if isTransport (s.getD i default) = true then chg flux dt s i else 0)
      = ∑ j ∈ Finset.range s.length,
          ((if isTransport (s.getD i default) = true
            then (s.getD i default).neighbors.count j else 0 : ℕ) : ℚ)
            * flux dt (s.getD i default) (s.getD j default) := by
    intro i hi
    have hi' : i < s.length := Finset.mem_range.mp hi
    by_cases hT : isTransport (s.getD i default) = true
    · rw [if_pos hT, chg_some flux dt (get?_eq_some_getD hi')]
      have hmapc : (s.getD i default).neighbors.map
            (fun j => flux dt (s.getD i default) (s.getD j (s.getD i default)))
          = (s.getD i default).neighbors.map
            (fun j => flux dt (s.getD i default) (s.getD j default)) := by
        apply List.map_congr_left
        intro j hj
        have hj' : j < s.length := (hnbr i hi' hT j hj).1
        have hgd : s.getD j (s.getD i default) = s.getD j default := by
          rw [List.getD_eq_get? s j (s.getD i default), List.getD_eq_get? s j default,
            get?_eq_some_getD hj']
          rfl
        rw [hgd]
      rw [hmapc,
        sum_map_eq_sum_count (s.getD i default).neighbors
          (fun j => flux dt (s.getD i default) (s.getD j default)) s.length
          (fun j hj => (hnbr i hi' hT j hj).1)]
      apply Finset.sum_congr rfl
      intro j _
      rw [if_pos hT]
    · rw [if_neg hT]
      symm
      apply Finset.sum_eq_zero
      intro j _
      rw [if_neg hT]
      simp
  rw [Finset.sum_congr rfl hchg]
  apply sum_antisym_zero
  · intro i hi j hj
    have hcnt := hsym i hi j hj
    by_cases hTi : isTransport (s.getD i default) = true
    · by_cases hTj : isTransport (s.getD j default) = true
      · rw [if_pos hTi, if_pos hTj, hcnt]
      · rw [if_pos hTi, if_neg hTj]
        apply List.count_eq_zero.mpr
        intro hmem
        exact hTj ((hnbr i hi hTi j hmem).2)
    · by_cases hTj : isTransport (s.getD j default) = true
      · rw [if_neg hTi, if_pos hTj]
        symm
        apply List.count_eq_zero.mpr
        intro hmem
        exact hTi ((hnbr j hj hTj i hmem).2)
      · rw [if_neg hTi, if_neg hTj]
  · intro i _ j _
    exact hanti dt _ _

/-- Witness for C3 on the concrete two-triangle closed mesh. -/
theorem phase1_conserves_total_w :
    totalOilChange (phase1 fluxEx (1/2) [tri1, tri2] (List.range [tri1, tri2].length)) = 0 :=
  phase1_conserves_total fluxEx (1/2) [tri1, tri2] (fun _ _ _ => rfl)
    (fun d a b => by unfold fluxEx; ring) (by decide) (by decide)

/-- Python dict assignment `m[k] = v`: overwrite in place if the key is present
(keeping its position), otherwise append at the end. -/
def dictInsert (m : List (ℚ × ℚ)) (k v : ℚ) : List (ℚ × ℚ) :=
  match m with
  | [] => [(k, v)]
  | (k', v') :: rest => if k' = k then (k, v) :: rest else (k', v') :: dictInsert rest k v

/-- `oil_in_area`: the sum of `oil_amount` over the fixed area-of-interest cell
set (solver.py lines 133-135). -/
def oilInArea (area : List ℕ) (s : List Cell) : ℚ :=
  (area.map fun i => (s.getD i default).oil_amount).sum

/-- The driver's step loop (solver.py lines 113-136), with the external plotting
hook dropped (it does not touch cell state): per step, the two-phase update,
then `current_time = round(current_time + dt, 4)`, then the area aggregate is
recorded under the new time in the `oil_area_time` dict.  The area-of-interest
cell set `area` is computed once before the loop and threaded through unchanged.
Returns the final cells, time, and the `oil_area_time` mapping. -/
def simLoop (flux : ℚ → Cell → Cell → ℚ) (dt : ℚ) (area : List ℕ) :
    ℕ → List Cell → ℚ → List (ℚ × ℚ) → List Cell × ℚ × List (ℚ × ℚ)
  | 0, s, time, m => (s, time, m)
  | k + 1, s, time, m =>
      let s' := step flux dt s
      let t' := roundTo (time + dt) 4
      simLoop flux dt area k s' t' (dictInsert m t' (oilInArea area s'))

/-- The mesh state after `k` full steps. -/
def stepIter (flux : ℚ → Cell → Cell → ℚ) (dt : ℚ) (s : List Cell) : ℕ → List Cell
  | 0 => s
  | k + 1 => step flux dt (stepIter flux dt s k)

/-- The (rounded) simulation time after `k` steps. -/
def timeIter (dt t0 : ℚ) : ℕ → ℚ
  | 0 => t0
  | k + 1 => roundTo (timeIter dt t0 k + dt) 4

theorem stepIter_shift (flux : ℚ → Cell → Cell → ℚ) (dt : ℚ) (s : List Cell) (k : ℕ) :
    stepIter flux dt (step flux dt s) k = stepIter flux dt s (k + 1) := by
  induction k with
  | zero => rfl
  | succ m ih => rw [stepIter, ih]; rfl

theorem timeIter_shift (dt t0 : ℚ) (k : ℕ) :
    timeIter dt (roundTo (t0 + dt) 4) k = timeIter dt t0 (k + 1) := by
  induction k with
  | zero => rfl
  | succ m ih => rw [timeIter, ih]; rfl

theorem dictInsert_of_fresh (m : List (ℚ × ℚ)) (k v : ℚ) (h : ∀ p ∈ m, p.1 ≠ k) :
    dictInsert m k v = m ++ [(k, v)] := by
  induction m with
  | nil => rfl
  | cons p rest ih =>
      obtain ⟨k', v'⟩ := p
      rw [dictInsert, if_neg (h (k', v') (List.mem_cons_self ..)), List.cons_append,
        ih fun q hq => h q (List.mem_cons_of_mem _ hq)]

theorem simLoop_acc (flux : ℚ → Cell → Cell → ℚ) (dt : ℚ) (area : List ℕ) :
    ∀ (n : ℕ) (s : List Cell) (t0 : ℚ) (m : List (ℚ × ℚ)),
      (∀ k < n, ∀ p ∈ m, p.1 ≠ timeIter dt t0 (k + 1)) →
      (∀ a < n, ∀ b < n, timeIter dt t0 (a + 1) = timeIter dt t0 (b + 1) → a = b) →
      (simLoop flux dt area n s t0 m).2.2 =
        m ++ (List.range n).map fun k =>
          (timeIter dt t0 (k + 1), oilInArea area (stepIter flux dt s (k + 1))) := by
  intro n
  induction n with
  | zero =>
      intro s t0 m _ _
      simp [simLoop]
  | succ n ih =>
      intro s t0 m hm hinj
      have hfresh : ∀ p ∈ m, p.1 ≠ roundTo (t0 + dt) 4 :=
        fun p hp => hm 0 (Nat.succ_pos n) p hp
      have hstep : simLoop flux dt area (n + 1) s t0 m =
          simLoop flux dt area n (step flux dt s) (roundTo (t0 + dt) 4)
            (dictInsert m (roundTo (t0 + dt) 4) (oilInArea area (step flux dt s))) := rfl
      rw [hstep, dictInsert_of_fresh m _ _ hfresh]
      have hm' : ∀ k < n,
          ∀ p ∈ m ++ [(roundTo (t0 + dt) 4, oilInArea area (step flux dt s))],
            p.1 ≠ timeIter dt (roundTo (t0 + dt) 4) (k + 1) := by
        intro k hk p hp
        rw [timeIter_shift]
        rcases List.mem_append.mp hp with hpm | hp1
        · exact hm (k + 1) (Nat.succ_lt_succ hk) p hpm
        · have hp2 : p = (roundTo (t0 + dt) 4, oilInArea area (step flux dt s)) :=
            List.mem_singleton.mp hp1
          rw [hp2]
          intro heq
          have h0 : timeIter dt t0 (0 + 1) = timeIter dt t0 ((k + 1) + 1) := heq
          have h1 := hinj 0 (Nat.succ_pos n) (k + 1) (Nat.succ_lt_succ hk) h0
          omega
      have hinj' : ∀ a < n, ∀ b < n,
          timeIter dt (roundTo (t0 + dt) 4) (a + 1) =
            timeIter dt (roundTo (t0 + dt) 4) (b + 1) → a = b := by
        intro a ha b hb heq
        rw [timeIter_shift, timeIter_shift] at heq
        have h1 := hinj (a + 1) (Nat.succ_lt_succ ha) (b + 1) (Nat.succ_lt_succ hb) heq
        omega
      rw [ih (step flux dt s) (roundTo (t0 + dt) 4) _ hm' hinj', List.append_assoc,
        List.singleton_append, List.range_succ_eq_map, List.map_cons, List.map_map]
      have hmap : (List.range n).map
            ((fun k => (timeIter dt t0 (k + 1), oilInArea area (stepIter flux dt s (k + 1))))
              ∘ Nat.succ)
          = (List.range n).map fun k =>
              (timeIter dt (roundTo (t0 + dt) 4) (k + 1),
                oilInArea area (stepIter flux dt (step flux dt s) (k + 1))) := by
        apply List.map_congr_left
        intro k _
        rw [Function.comp_apply, timeIter_shift, stepIter_shift]
      rw [hmap]
      rfl

/-- C4 (amended): provided the rounded post-step times of a run are pairwise
distinct, the loop's returned mapping has exactly one entry per step, in step
order: entry `k` has key `timeIter dt t0 (k+1)` (the rounded time after step
`k+1`) and value the aggregate over the fixed, precomputed area cell set of the
state right after that step's commit.  The area set is a parameter fixed before
the loop and never recomputed. -/
theorem simLoop_records_per_step (flux : ℚ → Cell → Cell → ℚ) (dt : ℚ) (area : List ℕ)
    (n : ℕ) (s : List Cell) (t0 : ℚ)
    (hinj : ∀ a < n, ∀ b < n, timeIter dt t0 (a + 1) = timeIter dt t0 (b + 1) → a = b) :
    (simLoop flux dt area n s t0 []).2.2 =
      (List.range n).map fun k =>
        (timeIter dt t0 (k + 1), oilInArea area (stepIter flux dt s (k + 1))) := by
  have h := simLoop_acc flux dt area n s t0 [] (fun k _ p hp => absurd hp (List.not_mem_nil p))
    hinj
  simpa using h

/-- Witness for C4's amended claim with a single step. -/
theorem simLoop_records_per_step_w :
    (simLoop fluxEx (1/2) [0] 1 [tri1, tri2] 0 []).2.2 =
      (List.range 1).map fun k =>
        (timeIter (1/2) 0 (k + 1), oilInArea [0] (stepIter fluxEx (1/2) [tri1, tri2] (k + 1))) :=
  simLoop_records_per_step fluxEx (1/2) [0] 1 [tri1, tri2] 0
    (fun a ha b hb _ => by omega)

/-- Counterexample for C4 as stated: with `dt = 1/100000`, two steps both round
to time 0; the dict's single entry holds the step-2 aggregate, so no entry of
the final mapping carries step 1's key/value pair. -/
theorem simLoop_missing_step_entry :
    (timeIter (1/100000) 0 1,
        oilInArea [0] (stepIter fluxEx (1/100000) [tri1, tri2] 1)) ∉
      (simLoop fluxEx (1/100000) [0] 2 [tri1, tri2] 0 []).2.2 := by
  norm_num [simLoop, dictInsert, oilInArea, timeIter, stepIter, step, phase1, phase2,
    calculate_change, commitCell, tri1, tri2, isTransport, fluxEx, roundTo, round_eq,
    List.range_succ]

/-- Python list indexing for `cells[int(index)]` (solver.py line 98): a
nonnegative index must be below the length, a negative index counts from the
end; anything else raises `IndexError`. -/
def pyIndex (n : ℕ) (i : ℤ) : Option ℕ :=
  if 0 ≤ i ∧ i < (n : ℤ) then some i.toNat
  else if -(n : ℤ) ≤ i ∧ i < 0 then some (i + n).toNat
  else none

/-- The restore loop of solver.py lines 96-98: each parsed line
`(index, oil_amount)` overwrites `cells[int(index)].oil_amount`. -/
def applyRestartLines : List Cell → List (ℤ × ℚ) → Except String (List Cell)
  | s, [] => .ok s
  | s, (i, a) :: rest =>
      match pyIndex s.length i with
      | some k => applyRestartLines (s.set k { s.getD k default with oil_amount := a }) rest
      | none => .error "IndexError"

/-- solver.py lines 92-100: with a restart file, the resume time is its first
line and the remaining lines overwrite cell oil amounts; without one,
`mesh.initial_oil_distribution(start_point)` runs.  The distribution operator
lives in the missing `mesh.py` and is abstracted as the parameter `initDist`. -/
def seedOrRestore (initDist : List Cell → List Cell)
    (restart : Option (ℚ × List (ℤ × ℚ))) (start_time : ℚ) (s : List Cell) :
    Except String (ℚ × List Cell) :=
  match restart with
  | some (t, lines) => (applyRestartLines s lines).map fun s' => (t, s')
  | none => .ok (start_time, initDist s)

/-- The oil amount cell `j` ends up with after a sequence of restart lines:
the value of the last line whose index is `j`, or the fallback. -/
def lastAmt (lines : List (ℤ × ℚ)) (j : ℕ) (d : ℚ) : ℚ :=
  lines.foldl (fun acc p => if p.1 = (j : ℤ) then p.2 else acc) d

theorem applyRestartLines_ok : ∀ (lines : List (ℤ × ℚ)) (s : List Cell),
    (∀ p ∈ lines, 0 ≤ p.1 ∧ p.1 < (s.length : ℤ)) →
    ∃ s', applyRestartLines s lines = .ok s' ∧ s'.length = s.length ∧
      ∀ j < s.length, s'.get? j =
        some { s.getD j default with
               oil_amount := lastAmt lines j ((s.getD j default).oil_amount) } := by
  intro lines
  induction lines with
  | nil =>
      intro s _
      exact ⟨s, rfl, rfl, fun j hj => get?_eq_some_getD hj⟩
  | cons p rest ih =>
      intro s h
      obtain ⟨i, a⟩ := p
      have hi := h (i, a) (List.mem_cons_self ..)
      have hpy : pyIndex s.length i = some i.toNat := by
        unfold pyIndex
        rw [if_pos hi]
      have hlen1 : (s.set i.toNat { s.getD i.toNat default with oil_amount := a }).length
          = s.length := List.length_set ..
      obtain ⟨s', hok, hlen', hchar⟩ :=
        ih (s.set i.toNat { s.getD i.toNat default with oil_amount := a })
          (fun q hq => by rw [hlen1]; exact h q (List.mem_cons_of_mem _ hq))
      refine ⟨s', ?_, hlen'.trans hlen1, ?_⟩
      · have hun : applyRestartLines s ((i, a) :: rest) =
            applyRestartLines (s.set i.toNat { s.getD i.toNat default with oil_amount := a })
              rest := by
          simp only [applyRestartLines, hpy]
        rw [hun, hok]
      · intro j hj
        have hj1 : j < (s.set i.toNat { s.getD i.toNat default with oil_amount := a }).length := by
          rw [hlen1]; exact hj
        rw [hchar j hj1]
        have hfold : lastAmt ((i, a) :: rest) j ((s.getD j default).oil_amount)
            = lastAmt rest j
                (if i = (j : ℤ) then a else (s.getD j default).oil_amount) := rfl
        rw [hfold]
        by_cases hij : i = (j : ℤ)
        · have hnat : i.toNat = j := by omega
          have hga : (s.set i.toNat { s.getD i.toNat default with oil_amount := a }).getD j
                default = { s.getD j default with oil_amount := a } := by
            rw [List.getD_eq_get?, hnat, List.get?_set_eq, get?_eq_some_getD hj]
            rfl
          rw [hga, if_pos hij]
        · have hnat : i.toNat ≠ j := by omega
          have hga : (s.set i.toNat { s.getD i.toNat default with oil_amount := a }).getD j
                default = s.getD j default := by
            rw [List.getD_eq_get?, List.get?_set_ne _ _ hnat, List.getD_eq_get?]
          rw [hga, if_neg hij]

/-- C5: with a restart file whose indices are in range, the resume time is the
file's first record, each line overwrites the oil amount of the cell at its
index (last line wins, all other fields untouched), and the result does not
depend on `initial_oil_distribution` (it is not invoked, for any configured
start time); with no restart file, the result is exactly the configured start
time and `initial_oil_distribution` applied to the mesh, with no data read from
any restart record. -/
theorem seedOrRestore_spec :
    (∀ (f g : List Cell → List Cell) (r : ℚ × List (ℤ × ℚ)) (t0 t1 : ℚ) (s : List Cell),
      seedOrRestore f (some r) t0 s = seedOrRestore g (some r) t1 s) ∧
    (∀ (f : List Cell → List Cell) (t : ℚ) (lines : List (ℤ × ℚ)) (t0 : ℚ) (s : List Cell),
      (∀ p ∈ lines, 0 ≤ p.1 ∧ p.1 < (s.length : ℤ)) →
      ∃ s', seedOrRestore f (some (t, lines)) t0 s = .ok (t, s') ∧
        s'.length = s.length ∧
        ∀ j < s.length, s'.get? j =
          some { s.getD j default with
                 oil_amount := lastAmt lines j ((s.getD j default).oil_amount) }) ∧
    (∀ (f : List Cell → List Cell) (t0 : ℚ) (s : List Cell),
      seedOrRestore f none t0 s = .ok (t0, f s)) := by
  refine ⟨fun f g r t0 t1 s => rfl, ?_, fun f t0 s => rfl⟩
  intro f t lines t0 s h
  obtain ⟨s', hok, hlen, hchar⟩ := applyRestartLines_ok lines s h
  refine ⟨s', ?_, hlen, hchar⟩
  show Except.map (fun s' => (t, s')) (applyRestartLines s lines) = .ok (t, s')
  rw [hok]
  rfl

/-- Witness for C5 at a concrete one-line restart file. -/
theorem seedOrRestore_spec_w :
    ∃ s', seedOrRestore (fun s => s) (some (3, [((0 : ℤ), 7)])) 0 [tri0] = .ok (3, s') ∧
      s'.length = [tri0].length ∧
      ∀ j < [tri0].length, s'.get? j =
        some { [tri0].getD j default with
               oil_amount := lastAmt [((0 : ℤ), 7)] j (([tri0].getD j default).oil_amount) } :=
  seedOrRestore_spec.2.1 (fun s => s) 3 [((0 : ℤ), 7)] 0 [tri0] (by decide)

theorem pyIndex_none_iff (n : ℕ) (i : ℤ) :
    pyIndex n i = none ↔ i < -(n : ℤ) ∨ (n : ℤ) ≤ i := by
  unfold pyIndex
  split_ifs with h1 h2
  · constructor
    · intro h
      exact absurd h (by simp)
    · intro h
      exfalso
      omega
  · constructor
    · intro h
      exact absurd h (by simp)
    · intro h
      exfalso
      omega
  · constructor
    · intro _
      omega
    · intro _
      rfl

theorem applyRestartLines_err : ∀ (lines : List (ℤ × ℚ)) (s : List Cell),
    (∃ p ∈ lines, p.1 < -(s.length : ℤ) ∨ (s.length : ℤ) ≤ p.1) →
    applyRestartLines s lines = .error "IndexError" := by
  intro lines
  induction lines with
  | nil =>
      intro s h
      obtain ⟨p, hp, _⟩ := h
      exact absurd hp (List.not_mem_nil p)
  | cons q rest ih =>
      intro s h
      obtain ⟨i, a⟩ := q
      by_cases hpy : pyIndex s.length i = none
      · simp only [applyRestartLines, hpy]
      · obtain ⟨k, hk⟩ : ∃ k, pyIndex s.length i = some k :=
          Option.ne_none_iff_exists'.mp hpy
        have hin : ¬(i < -(s.length : ℤ) ∨ (s.length : ℤ) ≤ i) := fun hc =>
          hpy ((pyIndex_none_iff s.length i).mpr hc)
        obtain ⟨p, hp, hout⟩ := h
        rcases List.mem_cons.mp hp with hhd | hrest
        · rw [hhd] at hout
          exact absurd hout hin
        · simp only [applyRestartLines, hk]
          apply ih
          refine ⟨p, hrest, ?_⟩
          rw [List.length_set]
          exact hout

/-- Counterexample for C6: the restart line `1;7` is out of range for a
one-cell mesh, and the restore raises `IndexError` instead of skipping the
line and leaving the state untouched. -/
theorem restore_out_of_range_counterexample :
    seedOrRestore (fun s => s) (some (3, [((1 : ℤ), 7)])) 0 [tri0] = .error "IndexError" ∧
    seedOrRestore (fun s => s) (some (3, [((1 : ℤ), 7)])) 0 [tri0] ≠ .ok (3, [tri0]) := by
  constructor
  · rfl
  · intro h
    have h1 : seedOrRestore (fun s => s) (some (3, [((1 : ℤ), 7)])) 0 [tri0]
        = Except.error "IndexError" := rfl
    rw [h1] at h
    exact absurd h (by simp)

/-- C6 (amended): a restart line whose index is out of range for the loaded
mesh (at or beyond the cell count, or below the negative wrap-around range)
makes the restore fail with `IndexError`; it is not skipped. -/
theorem restore_out_of_range_raises (f : List Cell → List Cell) (t t0 : ℚ)
    (lines : List (ℤ × ℚ)) (s : List Cell)
    (h : ∃ p ∈ lines, p.1 < -(s.length : ℤ) ∨ (s.length : ℤ) ≤ p.1) :
    seedOrRestore f (some (t, lines)) t0 s = .error "IndexError" := by
  show Except.map (fun s' => (t, s')) (applyRestartLines s lines) = _
  rw [applyRestartLines_err lines s h]
  rfl

/-- Witness for C6's amended claim. -/
theorem restore_out_of_range_raises_w :
    seedOrRestore (fun s => s) (some (2, [((5 : ℤ), 1)])) 0 [tri1] = .error "IndexError" :=
  restore_out_of_range_raises (fun s => s) 2 0 [((5 : ℤ), 1)] [tri1] (by decide)

/-- solver.py lines 102-107: if `start_time == end_time`, force `start_time`
to 0; then `dt = round((end_time - start_time) / intervals, 6)`.  Returns the
effective start time together with `dt`. -/
def computeDt (start_time end_time : ℚ) (intervals : ℤ) : ℚ × ℚ :=
  if start_time = end_time then
    (0, roundTo ((end_time - 0) / intervals) 6)
  else
    (start_time, roundTo ((end_time - start_time) / intervals) 6)

/-- C7: `dt` equals `(end_time − start_time) / intervals` rounded to 6
decimals, and when `start_time == end_time` the start time is forced to 0
first, so `dt = round(end_time / intervals, 6)`. -/
theorem computeDt_spec (st et : ℚ) (n : ℤ) :
    (st ≠ et → computeDt st et n = (st, roundTo ((et - st) / n) 6)) ∧
    (st = et → computeDt st et n = (0, roundTo (et / n) 6)) := by
  constructor
  · intro h
    unfold computeDt
    rw [if_neg h]
  · intro h
    unfold computeDt
    rw [if_pos h, sub_zero]

/-- Witness for C7 covering both branches. -/
theorem computeDt_spec_w :
    computeDt 1 5 2 = (1, roundTo ((5 - 1) / 2) 6) ∧
    computeDt 5 5 2 = (0, roundTo (5 / 2) 6) :=
  ⟨(computeDt_spec 1 5 2).1 (by norm_num), (computeDt_spec 5 5 2).2 rfl⟩

/-- A line of the restart snapshot: the leading timestamp, or one
`<index>;<oil_amount>` record. -/
inductive RLine where
  | time (t : ℚ)
  | cell (idx : ℕ) (amt : ℚ)
deriving DecidableEq, Repr

/-- solver.py lines 152-155: the snapshot written at the end of a run —
`end_time` on the first line, then `<index>;<oil_amount>` for every cell of the
mesh (no filtering by cell kind), in mesh order. -/
def writeRestart (end_time : ℚ) (s : List Cell) : List RLine :=
  RLine.time end_time :: s.map fun c => RLine.cell c.index c.oil_amount

/-- C8: the final snapshot has exactly one leading line carrying `end_time`
followed by one `<index>;<oil_amount>` line per cell — Vertex and Line cells
included — in mesh index order. -/
theorem writeRestart_spec (et : ℚ) (s : List Cell) :
    (writeRestart et s).length = s.length + 1 ∧
    (writeRestart et s).head? = some (RLine.time et) ∧
    ∀ i, (writeRestart et s).get? (i + 1) =
      (s.get? i).map fun c => RLine.cell c.index c.oil_amount := by
  refine ⟨?_, rfl, ?_⟩
  · rw [writeRestart, List.length_cons, List.length_map]
  · intro i
    rw [writeRestart, List.get?_cons_succ, List.get?_map]

/-- The `[geometry]` section of the TOML config; `Option` marks absent keys
(all three are read with `.get`, yielding `None` when missing). -/
structure GeometrySection where
  fish_area : Option (List ℚ)
  initial_oil_area : Option (List ℚ)
  filepath : Option String
deriving DecidableEq, Repr

/-- The `[settings]` section; `nSteps`, `t_start`, `t_end` are read with `.get`
(`t_start` with default 0). -/
structure SettingsSection where
  nSteps : Option ℤ
  t_start : Option ℚ
  t_end : Option ℚ
deriving DecidableEq, Repr

/-- The `[IO]` section; its three keys are read with `[]`, so a missing key is
a KeyError. -/
structure IOSection where
  writeFrequency : Option ℤ
  restartFile : Option String
  logName : Option String
deriving DecidableEq, Repr

/-- The parsed TOML document, with `Option` marking missing sections (sections
are accessed with `[]`). -/
structure TomlConfig where
  geometry : Option GeometrySection
  settings : Option SettingsSection
  io : Option IOSection
deriving DecidableEq, Repr

/-- The Python exceptions `readConfig` can raise. -/
inductive PyErr where
  | fileNotFound (msg : String)
  | valueError (msg : String)
  | keyError (msg : String)
deriving DecidableEq, Repr

/-- Python truthiness of a string: empty is falsy. -/
def truthyStr (s : String) : Bool :=
  !s.isEmpty

/-- Python truthiness of a `.get`-fetched string: `None` and `""` are falsy. -/
def truthyOptStr : Option String → Bool
  | none => false
  | some s => truthyStr s

/-- Python truthiness of a `.get`-fetched list: `None` and `[]` are falsy. -/
def truthyOptList : Option (List ℚ) → Bool
  | none => false
  | some l => !l.isEmpty

/-- The condition of `if not steps or steps <= 0`: `nSteps` missing, zero, or
negative. -/
def stepsMissingOrNonpos : Option ℤ → Bool
  | none => true
  | some v => decide (v ≤ 0)

/-- The condition of `if t_end is None or t_end <= t_start`. -/
def tEndMissingOrNotAfter : Option ℚ → ℚ → Bool
  | none, _ => true
  | some te, ts => decide (te ≤ ts)

/-- config.py lines 21-70, `readConfig`: eager validation of the parsed TOML
document.  `fileExists` abstracts `os.path.exists`; `config` stands for the
value `toml.load` produced.  The fallback values the code computes near the end
(`writeFrequency = -1000`, `t_start = 0`, `logName = "logfile.log"`) are local
shadowing assignments, after which the original `config` is returned. -/
def readConfig (fileExists : String → Bool) (name : String) (config : TomlConfig) :
    Except PyErr TomlConfig :=
  if !fileExists name then
    .error (.fileNotFound "The config file does not exist.")
  else
    match config.geometry with
    | none => .error (.keyError "geometry")
    | some geometry =>
      let fish_area := geometry.fish_area
      let start_point := geometry.initial_oil_area
      let filepath := geometry.filepath
      match config.settings with
      | none => .error (.keyError "settings")
      | some settings =>
        let steps := settings.nSteps
        let t_start := settings.t_start.getD 0
        let t_end := settings.t_end
        match config.io with
        | none => .error (.keyError "IO")
        | some ios =>
          match ios.writeFrequency, ios.restartFile, ios.logName with
          | none, _, _ => .error (.keyError "writeFrequency")
          | _, none, _ => .error (.keyError "restartFile")
          | _, _, none => .error (.keyError "logName")
          | some writeFrequency, some restartFile, some logName =>
            if !truthyOptStr filepath || !fileExists (filepath.getD "") then
              .error (.fileNotFound "The mesh file does not exist.")
            else if !truthyOptList fish_area then
              .error (.valueError "Missing fish_area in geometry section.")
            else if !truthyOptList start_point then
              .error (.valueError "Missing initial_oil_area in geometry section.")
            else if stepsMissingOrNonpos steps then
              .error (.valueError "Missing nSteps in settings section.")
            else if truthyStr restartFile && decide (t_start = 0) then
              .error (.valueError "if restarFile given, must give t_start.")
            else if tEndMissingOrNotAfter t_end t_start then
              .error (.valueError "Missing t_end in or t_end <= t_start in settings section.")
            else
              let writeFrequency := if writeFrequency = 0 then -1000 else writeFrequency
              let t_start := if !truthyStr restartFile then 0 else t_start
              let logName := if !truthyStr logName then "logfile.log" else logName
              .ok config

/-- A config whose three sections and `[]`-read IO keys are all present. -/
def mkConf (g : GeometrySection) (st : SettingsSection) (wf : ℤ) (rf ln : String) :
    TomlConfig :=
  ⟨some g, some st, some ⟨some wf, some rf, some ln⟩⟩

/-- C9: `readConfig` validates eagerly and raises field-specific exceptions:
`FileNotFoundError` for a missing config file or a missing/nonexistent mesh
filepath, and `ValueError` for a missing/empty `fish_area` or
`initial_oil_area`, a missing or non-positive `nSteps`, a `restartFile` given
without `t_start`, and a missing `t_end` or one not after `t_start` — each
conjunct assuming every earlier check passed, matching the code's check
order. -/
theorem readConfig_error_spec :
    (∀ (fe : String → Bool) (name : String) (conf : TomlConfig), fe name = false →
      readConfig fe name conf = .error (.fileNotFound "The config file does not exist.")) ∧
    (∀ (fe : String → Bool) (name : String) (g : GeometrySection) (st : SettingsSection)
        (wf : ℤ) (rf ln : String), fe name = true →
      (!truthyOptStr g.filepath || !fe (g.filepath.getD "")) = true →
      readConfig fe name (mkConf g st wf rf ln) =
        .error (.fileNotFound "The mesh file does not exist.")) ∧
    (∀ (fe : String → Bool) (name : String) (g : GeometrySection) (st : SettingsSection)
        (wf : ℤ) (rf ln : String), fe name = true →
      (!truthyOptStr g.filepath || !fe (g.filepath.getD "")) = false →
      truthyOptList g.fish_area = false →
      readConfig fe name (mkConf g st wf rf ln) =
        .error (.valueError "Missing fish_area in geometry section.")) ∧
    (∀ (fe : String → Bool) (name : String) (g : GeometrySection) (st : SettingsSection)
        (wf : ℤ) (rf ln : String), fe name = true →
      (!truthyOptStr g.filepath || !fe (g.filepath.getD "")) = false →
      truthyOptList g.fish_area = true →
      truthyOptList g.initial_oil_area = false →
      readConfig fe name (mkConf g st wf rf ln) =
        .error (.valueError "Missing initial_oil_area in geometry section.")) ∧
    (∀ (fe : String → Bool) (name : String) (g : GeometrySection) (st : SettingsSection)
        (wf : ℤ) (rf ln : String), fe name = true →
      (!truthyOptStr g.filepath || !fe (g.filepath.getD "")) = false →
      truthyOptList g.fish_area = true →
      truthyOptList g.initial_oil_area = true →
      stepsMissingOrNonpos st.nSteps = true →
      readConfig fe name (mkConf g st wf rf ln) =
        .error (.valueError "Missing nSteps in settings section.")) ∧
    (∀ (fe : String → Bool) (name : String) (g : GeometrySection) (st : SettingsSection)
        (wf : ℤ) (rf ln : String), fe name = true →
      (!truthyOptStr g.filepath || !fe (g.filepath.getD "")) = false →
      truthyOptList g.fish_area = true →
      truthyOptList g.initial_oil_area = true →
      stepsMissingOrNonpos st.nSteps = false →
      truthyStr rf = true → st.t_start = none →
      readConfig fe name (mkConf g st wf rf ln) =
        .error (.valueError "if restarFile given, must give t_start.")) ∧
    (∀ (fe : String → Bool) (name : String) (g : GeometrySection) (st : SettingsSection)
        (wf : ℤ) (rf ln : String), fe name = true →
      (!truthyOptStr g.filepath || !fe (g.filepath.getD "")) = false →
      truthyOptList g.fish_area = true →
      truthyOptList g.initial_oil_area = true →
      stepsMissingOrNonpos st.nSteps = false →
      (truthyStr rf && decide (st.t_start.getD 0 = 0)) = false →
      tEndMissingOrNotAfter st.t_end (st.t_start.getD 0) = true →
      readConfig fe name (mkConf g st wf rf ln) =
        .error
          (.valueError "Missing t_end in or t_end <= t_start in settings section.")) := by
  refine ⟨?_, ?_, ?_, ?_, ?_, ?_, ?_⟩
  · intro fe name conf h
    simp [readConfig, h]
  · intro fe name g st wf rf ln h1 h2
    simp [readConfig, mkConf, h1, h2]
  · intro fe name g st wf rf ln h1 h2 h3
    simp [readConfig, mkConf, h1, h2, h3]
  · intro fe name g st wf rf ln h1 h2 h3 h4
    simp [readConfig, mkConf, h1, h2, h3, h4]
  · intro fe name g st wf rf ln h1 h2 h3 h4 h5
    simp [readConfig, mkConf, h1, h2, h3, h4, h5]
  · intro fe name g st wf rf ln h1 h2 h3 h4 h5 h6 h7
    simp [readConfig, mkConf, h1, h2, h3, h4, h5, h6, h7]
  · intro fe name g st wf rf ln h1 h2 h3 h4 h5 h6 h7
    simp [readConfig, mkConf, h1, h2, h3, h4, h5, h6, h7]

/-- Witness for C9: a nonexistent config file raises `FileNotFoundError`. -/
theorem readConfig_error_spec_w :
    readConfig (fun _ => false) "input.toml"
        (mkConf ⟨none, none, none⟩ ⟨none, none, none⟩ 0 "" "") =
      .error (.fileNotFound "The config file does not exist.") :=
  readConfig_error_spec.1 (fun _ => false) "input.toml"
    (mkConf ⟨none, none, none⟩ ⟨none, none, none⟩ 0 "" "") rfl

/-- C10: on success `readConfig` returns the parsed document unchanged — the
fallback values computed into shadowing locals (`writeFrequency`, `t_start`,
`logName`) are never written back, so the caller sees exactly the file's
values. -/
theorem readConfig_returns_config_unchanged (fe : String → Bool) (name : String)
    (conf r : TomlConfig) (h : readConfig fe name conf = .ok r) : r = conf := by
  simp only [readConfig] at h
  repeat' split at h
  all_goals try exact Except.noConfusion h
  injection h with h2
  exact h2.symm

/-- Witness for C10 on a fully valid concrete config. -/
theorem readConfig_returns_config_unchanged_w :
    mkConf ⟨some [1], some [1], some "m.msh"⟩ ⟨some 10, none, some 1⟩ 5 "" "log" =
      mkConf ⟨some [1], some [1], some "m.msh"⟩ ⟨some 10, none, some 1⟩ 5 "" "log" :=
  readConfig_returns_config_unchanged (fun _ => true) "c"
    (mkConf ⟨some [1], some [1], some "m.msh"⟩ ⟨some 10, none, some 1⟩ 5 "" "log")
    (mkConf ⟨some [1], some [1], some "m.msh"⟩ ⟨some 10, none, some 1⟩ 5 "" "log")
    (by rfl)

end OilSpill
